import Mathlib

/-!
Verification of the flowgen diagram store and integrity engine.

A shallow embedding of the Go backend of `michaellanpart/flowgen`:
the document model (`backend/internal/models/diagram.go`), the diagram
service (`backend/internal/services/diagram_service.go`) and the hierarchy
service, together with proofs about the claims of the specification.

Modelling conventions:
* Go strings are Lean `String`; `strings.ToLower` is modelled by
  `String.map Char.toLower` (ASCII case folding) and `strings.Contains`
  by an explicit contiguous-sublist test.
* `time.Time` values are modelled by `Nat` instants; the service only
  copies them around, never inspects them.
* `float64` scores are modelled by `ℚ`; the search code only adds the
  positive constants 1.0, 0.8 and 0.6 and compares with 0.
* The persisted store (a directory of YAML files) is a `List FlowDiagram`
  where each entry carries its location in `FilePath`; writing a file
  replaces the entry at the same path or appends a new entry.
* Fields that no modelled operation ever reads (positions, dimensions,
  styles, layout, metadata, integrations) are omitted from the records;
  every modelled function reads only fields present here.
-/

namespace Flowgen

/-- Model of `models.FlowNode` (the fields read by the services).
`NType` models the Go field `Type` (a Lean keyword). -/
structure FlowNode where
  ID : String
  Name : String
  Description : Option String := none
  Tags : List String := []
  NType : String := "process"
  DrillDown : Option String := none
deriving DecidableEq

/-- Model of `models.FlowEdge` (the fields read by the services).
`EType` models the Go field `Type`. -/
structure FlowEdge where
  ID : String
  Name : String
  EType : String := "sequence"
  From : String
  To : String
deriving DecidableEq

/-- Model of `models.FlowDiagram` (the fields read by the services).
`Created` and `Updated` are abstract instants; `FilePath` is the
persistence location (Go tag `yaml:"-"`, maintained by the store). -/
structure FlowDiagram where
  ID : String
  Name : String
  Description : Option String := none
  Tags : List String := []
  Version : String
  Nodes : List FlowNode := []
  Edges : List FlowEdge := []
  Parent : Option String := none
  Children : List String := []
  Created : Nat := 0
  Updated : Nat := 0
  FilePath : String := ""
deriving DecidableEq

/-- Model of `models.ValidationError`.  The Go field `Value` is omitted:
`Validate` never sets it. -/
structure ValidationError where
  Path : String
  Message : String
  Code : String
deriving DecidableEq

/-- Model of `models.ValidationResult`. -/
structure ValidationResult where
  Valid : Bool
  Errors : List ValidationError
  Warnings : List ValidationError
deriving DecidableEq

/-- Model of `models.SearchResult` (score as `ℚ`, see header). -/
structure SearchResult where
  Diagram : FlowDiagram
  Score : ℚ
  MatchType : String
deriving DecidableEq

/-- The error kinds produced by the services.  Go reports errors as
wrapped `error` values; we keep the kind and the wrapping structure.
`fuelExhausted` is an artificial bottom for the fuelled hierarchy
traversal; the theorems show it is never reached from `GetHierarchyTree`. -/
inductive ServiceError where
  | notFound
  | invalidDocument (numErrors : Nat)
  | idMismatch (yamlID pathID : String)
  | noParent
  | nodeNotFound (nodeID : String)
  | circularReference (id : String)
  | wrapped (context : String) (e : ServiceError)
  | fuelExhausted
deriving DecidableEq

/-! ## Validator (`DiagramService.Validate`, diagram_service.go lines 152-250) -/

/-- The node loop of `Validate` (lines 185-210): walks the nodes with the
running index `i`, the id set `nodeIDs` (a list used as a set) and the
error list accumulated so far; returns the final id set and errors. -/
def validateNodesAux : List FlowNode → Nat → List String → List ValidationError →
    List String × List ValidationError
  | [], _, nodeIDs, errs => (nodeIDs, errs)
  | n :: rest, i, nodeIDs, errs =>
    let (ids1, errs1) :=
      if n.ID = "" then
        (nodeIDs, errs ++ [⟨"nodes[" ++ toString i ++ "].id",
          "Node ID is required", "MISSING_NODE_ID"⟩])
      else if n.ID ∈ nodeIDs then
        (nodeIDs, errs ++ [⟨"nodes[" ++ toString i ++ "].id",
          "Duplicate node ID: " ++ n.ID, "DUPLICATE_NODE_ID"⟩])
      else
        (n.ID :: nodeIDs, errs)
    let errs2 :=
      if n.Name = "" then
        errs1 ++ [⟨"nodes[" ++ toString i ++ "].name",
          "Node name is required", "MISSING_NODE_NAME"⟩]
      else errs1
    validateNodesAux rest (i + 1) ids1 errs2

/-- The edge loop of `Validate` (lines 212-246): walks the edges with the
running index, the edge id set and the node id set collected by the node
loop.  Note: the source checks `edge.ID`, duplicate edge ids, `edge.From`
and `edge.To`, but — unlike the node loop — has no check on `edge.Name`. -/
def validateEdgesAux : List FlowEdge → Nat → List String → List String →
    List ValidationError → List String × List ValidationError
  | [], _, edgeIDs, _, errs => (edgeIDs, errs)
  | e :: rest, i, edgeIDs, nodeIDs, errs =>
    let (ids1, errs1) :=
      if e.ID = "" then
        (edgeIDs, errs ++ [⟨"edges[" ++ toString i ++ "].id",
          "Edge ID is required", "MISSING_EDGE_ID"⟩])
      else if e.ID ∈ edgeIDs then
        (edgeIDs, errs ++ [⟨"edges[" ++ toString i ++ "].id",
          "Duplicate edge ID: " ++ e.ID, "DUPLICATE_EDGE_ID"⟩])
      else
        (e.ID :: edgeIDs, errs)
    let errs2 :=
      if e.From ∈ nodeIDs then errs1
      else errs1 ++ [⟨"edges[" ++ toString i ++ "].from",
        "Edge references non-existent from node: " ++ e.From,
        "INVALID_FROM_NODE"⟩]
    let errs3 :=
      if e.To ∈ nodeIDs then errs2
      else errs2 ++ [⟨"edges[" ++ toString i ++ "].to",
        "Edge references non-existent to node: " ++ e.To,
        "INVALID_TO_NODE"⟩]
    validateEdgesAux rest (i + 1) ids1 nodeIDs errs3

/-- `DiagramService.Validate` (lines 152-250): basic diagram checks, the
node loop, the edge loop; `Valid` is true iff no error was recorded. -/
def validate (d : FlowDiagram) : ValidationResult :=
  let errs0 : List ValidationError :=
    (if d.ID = "" then
      [⟨"id", "Diagram ID is required", "MISSING_ID"⟩] else []) ++
    (if d.Name = "" then
      [⟨"name", "Diagram name is required", "MISSING_NAME"⟩] else []) ++
    (if d.Version = "" then
      [⟨"version", "Diagram version is required", "MISSING_VERSION"⟩] else [])
  let (nodeIDs, errs1) := validateNodesAux d.Nodes 0 [] errs0
  let (_, errs2) := validateEdgesAux d.Edges 0 [] nodeIDs errs1
  ⟨errs2.isEmpty, errs2, []⟩

/-! ## Store operations (diagram_service.go)

The persisted store is a list of diagrams, each carrying its file
location in `FilePath`.  `ListAll` enumerates the list; writing a file
replaces the entry at that path, or appends the new file. -/

/-- The file path `Create`/`SaveYAMLByID` derive from an id:
`filepath.Join(cfg.DiagramsPath, id + ".yaml")` with the default
`DiagramsPath` of `./diagrams` (Join cleans the leading `./`). -/
def diagPath (id : String) : String := "diagrams/" ++ id ++ ".yaml"

/-- Writing `d` at path `p`: overwrite the file at `p` if it exists,
otherwise create a new file. -/
def writeFile : List FlowDiagram → String → FlowDiagram → List FlowDiagram
  | [], _, d => [d]
  | e :: rest, p, d =>
    if e.FilePath = p then d :: rest else e :: writeFile rest p d

/-- `DiagramService.GetByID` (lines 64-78): linear scan of `ListAll`
returning the first document with the wanted id, `ErrDiagramNotFound`
when absent. -/
def getByID : List FlowDiagram → String → Except ServiceError FlowDiagram
  | [], _ => .error .notFound
  | e :: rest, id => if e.ID = id then .ok e else getByID rest id

/-- `DiagramService.Create` (lines 81-108): stamp `Created`/`Updated` to
now, validate (`validateDiagram` turns an invalid result into an error
carrying the error count), derive the file path from the id, persist.
No check that the id is already present: an existing file at the derived
path is silently overwritten. -/
def create (store : List FlowDiagram) (now : Nat) (d : FlowDiagram) :
    Except ServiceError FlowDiagram × List FlowDiagram :=
  let d0 := {d with Created := now, Updated := now}
  let r := validate d0
  if r.Valid then
    let d1 := {d0 with FilePath := diagPath d0.ID}
    (.ok d1, writeFile store d1.FilePath d1)
  else
    (.error (.invalidDocument r.Errors.length), store)

/-- `DiagramService.Update` (lines 110-134): require the id to exist,
preserve the original `Created` and `FilePath`, stamp `Updated` to now,
re-validate, re-persist at the original path. -/
def update (store : List FlowDiagram) (now : Nat) (d : FlowDiagram) :
    Except ServiceError FlowDiagram × List FlowDiagram :=
  match getByID store d.ID with
  | .error e => (.error e, store)
  | .ok existing =>
    let d1 := {d with Created := existing.Created, Updated := now,
                      FilePath := existing.FilePath}
    let r := validate d1
    if r.Valid then (.ok d1, writeFile store d1.FilePath d1)
    else (.error (.invalidDocument r.Errors.length), store)

/-- `DiagramService.SaveYAMLByID` (lines 440-473), starting from the
diagram the YAML text parses to (the `yaml.Unmarshal` step itself is the
external library): reconcile the id (derive it from the path when the
parsed document has none, reject a mismatch), validate the reconciled
document, persist it at `<id>.yaml`.  No timestamps are stamped. -/
def saveYAMLByID (store : List FlowDiagram) (id : String) (parsed : FlowDiagram) :
    Except ServiceError Unit × List FlowDiagram :=
  let d := if parsed.ID = "" then {parsed with ID := id} else parsed
  if parsed.ID ≠ "" ∧ parsed.ID ≠ id then
    (.error (.idMismatch parsed.ID id), store)
  else
    let r := validate d
    if r.Valid then
      let d1 := {d with FilePath := diagPath id}
      (.ok (), writeFile store d1.FilePath d1)
    else
      (.error (.invalidDocument r.Errors.length), store)

/-! ## Search (`DiagramService.Search`, lines 253-321) -/

/-- `strings.ToLower`, restricted to ASCII case folding. -/
def goToLower (s : String) : String := String.mk (s.data.map Char.toLower)

/-- Contiguous-sublist test on characters: `sub` occurs in `s`
(`strings.Contains`).  The empty `sub` occurs in every string. -/
def containsSub : List Char → List Char → Bool
  | s, sub =>
    sub.isPrefixOf s ||
      match s with
      | [] => false
      | _ :: t => containsSub t sub

/-- `strings.Contains(s, sub)`. -/
def goContains (s sub : String) : Bool := containsSub s.toList sub.toList

/-- `strings.EqualFold(a, b)` (simple case folding). -/
def eqFold (a b : String) : Bool := goToLower a = goToLower b

/-- The tag-scoring loop of `Search` (lines 281-288): each tag containing
the query adds 0.6 to the score and sets `matchType` to "tag" if it is
still unset. -/
def tagLoop (q : String) (tags : List String) (sm : ℚ × String) : ℚ × String :=
  tags.foldl (fun sm tag =>
    if goContains (goToLower tag) q then
      (sm.1 + 0.6, if sm.2 = "" then "tag" else sm.2)
    else sm) sm

/-- The per-diagram body of `Search` (lines 262-318): score name (1.0,
"name"), description (0.8, "description"), tags (0.6 each, "tag"); when
a tags filter is given the diagram must carry every required tag
(case-insensitively); include when the score is positive or a tags
filter was given. -/
def searchOne (query : String) (tags : List String) (d : FlowDiagram) :
    Option SearchResult :=
  let q := goToLower query
  let sm0 : ℚ × String :=
    if goContains (goToLower d.Name) q then (1, "name") else (0, "")
  let sm1 : ℚ × String :=
    match d.Description with
    | some desc =>
      if goContains (goToLower desc) q then
        (sm0.1 + 0.8, if sm0.2 = "" then "description" else sm0.2)
      else sm0
    | none => sm0
  let sm2 := tagLoop q d.Tags sm1
  let hasAllTags := tags.all (fun rt => d.Tags.any (fun dt => eqFold dt rt))
  if tags.length > 0 ∧ ¬hasAllTags then none
  else if sm2.1 > 0 ∨ tags.length > 0 then some ⟨d, sm2.1, sm2.2⟩
  else none

/-- `DiagramService.Search`: apply `searchOne` to every stored diagram,
keeping results in enumeration order. -/
def search (store : List FlowDiagram) (query : String) (tags : List String) :
    List SearchResult :=
  store.filterMap (searchOne query tags)

/-! ## Hierarchy service (`HierarchyService`) -/

/-- `HierarchyService.GetChildren`: resolve each id in the parent's
`Children` via the store, skipping ids that fail to resolve. -/
def getChildren (store : List FlowDiagram) (parentID : String) :
    Except ServiceError (List FlowDiagram) :=
  match getByID store parentID with
  | .error e => .error e
  | .ok parent =>
    .ok (parent.Children.filterMap (fun cid => (getByID store cid).toOption))

/-- `HierarchyService.GetParent`: fail when the child has no parent set,
otherwise resolve the parent id. -/
def getParent (store : List FlowDiagram) (childID : String) :
    Except ServiceError FlowDiagram :=
  match getByID store childID with
  | .error e => .error e
  | .ok child =>
    match child.Parent with
    | none => .error .noParent
    | some pid => getByID store pid

/-- The drill-down assignment of `LinkDiagrams` (lines 84-97): set
`DrillDown := childID` on the first node whose id is `nodeID`; `none`
when no node matches. -/
def setDrillDown (nodes : List FlowNode) (nodeID childID : String) :
    Option (List FlowNode) :=
  match nodes with
  | [] => none
  | n :: rest =>
    if n.ID = nodeID then some ({n with DrillDown := some childID} :: rest)
    else (setDrillDown rest nodeID childID).map (n :: ·)

/-- `HierarchyService.LinkDiagrams` (lines 57-112): load both diagrams,
append `childID` to the parent's `Children` unless already present,
optionally set a node's drill-down, set the child's `Parent`, persist
both through `Update` (the child update sees the store already holding
the updated parent). -/
def linkDiagrams (store : List FlowDiagram) (now : Nat)
    (parentID childID nodeID : String) :
    Except ServiceError Unit × List FlowDiagram :=
  match getByID store parentID with
  | .error e => (.error (.wrapped "failed to get parent diagram" e), store)
  | .ok parent =>
  match getByID store childID with
  | .error e => (.error (.wrapped "failed to get child diagram" e), store)
  | .ok child =>
    let parent1 :=
      if childID ∈ parent.Children then parent
      else {parent with Children := parent.Children ++ [childID]}
    let nodesR : Except ServiceError (List FlowNode) :=
      if nodeID = "" then .ok parent1.Nodes
      else
        match setDrillDown parent1.Nodes nodeID childID with
        | some ns => .ok ns
        | none => .error (.nodeNotFound nodeID)
    match nodesR with
    | .error e => (.error e, store)
    | .ok nodes1 =>
      let parent2 := {parent1 with Nodes := nodes1}
      let child1 := {child with Parent := some parentID}
      match update store now parent2 with
      | (.error e, st) => (.error (.wrapped "failed to update parent diagram" e), st)
      | (.ok _, store1) =>
        match update store1 now child1 with
        | (.error e, st) => (.error (.wrapped "failed to update child diagram" e), st)
        | (.ok _, store2) => (.ok (), store2)

/-- The parent document as `LinkDiagrams` (without a drill-down node)
persists it: `childID` appended to `Children` unless already present,
`Updated` stamped by the inner `Update`, everything else kept. -/
def linkedParent (P : FlowDiagram) (childID : String) (now : Nat) :
    FlowDiagram :=
  {P with
    Children := if childID ∈ P.Children then P.Children
                else P.Children ++ [childID],
    Updated := now}

/-- The child document as `LinkDiagrams` persists it: `Parent` set to
the parent id, `Updated` stamped by the inner `Update`. -/
def linkedChild (C : FlowDiagram) (parentID : String) (now : Nat) :
    FlowDiagram :=
  {C with Parent := some parentID, Updated := now}

/-- `buildHierarchyNode`'s result tree (`HierarchyNode`). -/
inductive HierarchyNode where
  | mk (Diagram : FlowDiagram) (Children : List HierarchyNode)

/-- The diagram at the root of a hierarchy node. -/
def HierarchyNode.diagram : HierarchyNode → FlowDiagram
  | .mk d _ => d

/-- The child trees of a hierarchy node. -/
def HierarchyNode.children : HierarchyNode → List HierarchyNode
  | .mk _ cs => cs

/-- `HierarchyService.buildHierarchyNode` (unnamed/part_001 lines
170-202), with an explicit fuel making the Go recursion structural.
The `visited` list models the mutable `map[string]bool` threaded through
the recursion: membership is checked on entry, the id is added before
loading the diagram, child results are accumulated with errors logged
and skipped, and the id is removed again once the subtree is complete
(on the error paths Go returns without removing it, exactly as here).
The fuel-exhaustion bottom is artificial; `buildHierarchyNode_stable`
shows any fuel exceeding the number of distinct unvisited store ids
yields the same result, so the Go recursion (which this function equals
at every sufficient fuel) terminates.

The child loop (`hierFold`, lines 187-196) runs the recursive build `f`
on each child id in turn, threading the visited set; a failed child is
logged and skipped, a successful child is appended. -/
def hierFold (f : String → List String → Except ServiceError HierarchyNode × List String) :
    List String → List HierarchyNode × List String → List HierarchyNode × List String
  | [], acc => acc
  | c :: cs, acc =>
    match f c acc.2 with
    | (.error _, v2) => hierFold f cs (acc.1, v2)
    | (.ok node, v2) => hierFold f cs (acc.1 ++ [node], v2)

def buildHierarchyNode (store : List FlowDiagram) :
    Nat → String → List String → Except ServiceError HierarchyNode × List String
  | 0, _, visited => (.error .fuelExhausted, visited)
  | fuel + 1, id, visited =>
    if id ∈ visited then (.error (.circularReference id), visited)
    else
      match getByID store id with
      | .error e => (.error e, id :: visited)
      | .ok d =>
        let r := hierFold (fun c vv => buildHierarchyNode store fuel c vv)
          d.Children ([], id :: visited)
        (.ok (.mk d r.1), r.2.erase id)

/-- The distinct ids present in the store. -/
def storeIDs (store : List FlowDiagram) : Finset String :=
  (store.map (fun d => d.ID)).toFinset

/-- `HierarchyService.GetHierarchyTree`: run the traversal from the root
with the empty active path.  The fuel (one more than the number of
distinct store ids) is sufficient by `buildHierarchyNode_stable`. -/
def getHierarchyTree (store : List FlowDiagram) (rootID : String) :
    Except ServiceError HierarchyNode :=
  (buildHierarchyNode store ((storeIDs store).card + 1) rootID []).1

/-! ## Concrete fixtures used by counterexamples and witnesses -/

/-- A valid diagram with id `A`, persisted (as `Create` stores it). -/
def exA : FlowDiagram :=
  { ID := "A", Name := "Diagram A", Version := "1.0.0",
    FilePath := "diagrams/A.yaml" }

/-- A valid replacement diagram carrying the same id `A`. -/
def exA2 : FlowDiagram :=
  { ID := "A", Name := "Replacement A", Version := "2.0.0" }

/-- `exA2` as `Create` persists it at instant 7. -/
def exA2saved : FlowDiagram :=
  { ID := "A", Name := "Replacement A", Version := "2.0.0",
    Created := 7, Updated := 7, FilePath := "diagrams/A.yaml" }

/-- Cyclic hierarchy, first half: `A` lists `B` among its children. -/
def cycA : FlowDiagram :=
  { ID := "A", Name := "Diagram A", Version := "1.0.0", Children := ["B"],
    FilePath := "diagrams/A.yaml" }

/-- Cyclic hierarchy, second half: `B` lists `A` among its children. -/
def cycB : FlowDiagram :=
  { ID := "B", Name := "Diagram B", Version := "1.0.0", Children := ["A"],
    FilePath := "diagrams/B.yaml" }

/-- What a YAML text with no `id:` field parses to: an otherwise valid
document with an empty id. -/
def noIdDoc : FlowDiagram := { ID := "", Name := "N", Version := "1.0.0" }

/-- The document `SaveYAMLByID "x"` persists for `noIdDoc`. -/
def noIdDocSaved : FlowDiagram :=
  { ID := "x", Name := "N", Version := "1.0.0", FilePath := "diagrams/x.yaml" }

/-- An invalid document (empty name and version) whose id is not stored. -/
def badDoc : FlowDiagram := { ID := "z", Name := "", Version := "" }

/-- A diagram whose only edge has an empty `name`, all other validation
rules satisfied. -/
def edgeNoName : FlowDiagram :=
  { ID := "d1", Name := "D", Version := "1.0.0",
    Nodes := [{ ID := "n1", Name := "N1" }, { ID := "n2", Name := "N2" }],
    Edges := [{ ID := "e1", Name := "", From := "n1", To := "n2" }] }

/-- A diagram whose only edge is a self-loop (`from == to`), all other
validation rules satisfied. -/
def selfLoop : FlowDiagram :=
  { ID := "d2", Name := "D2", Version := "1.0.0",
    Nodes := [{ ID := "n1", Name := "N1" }],
    Edges := [{ ID := "e1", Name := "loop", From := "n1", To := "n1" }] }

/-- A valid persisted parent diagram. -/
def wP : FlowDiagram :=
  { ID := "P", Name := "Parent", Version := "1.0.0",
    FilePath := "diagrams/P.yaml" }

/-- A valid persisted child diagram. -/
def wC : FlowDiagram :=
  { ID := "C", Name := "Child", Version := "1.0.0",
    FilePath := "diagrams/C.yaml" }

/-- A diagram with a description and tags, for the search witnesses. -/
def wS : FlowDiagram :=
  { ID := "S", Name := "Check Status", Version := "1.0.0",
    Description := some "status flow", Tags := ["ops", "Status"],
    FilePath := "diagrams/S.yaml" }

/-! ## Helper lemmas -/

/-- `Validate` reads only `ID`, `Name`, `Version`, `Nodes` and `Edges`:
diagrams agreeing on those five fields validate identically. -/
theorem validate_fields_eq (d e : FlowDiagram) (h1 : d.ID = e.ID)
    (h2 : d.Name = e.Name) (h3 : d.Version = e.Version)
    (h4 : d.Nodes = e.Nodes) (h5 : d.Edges = e.Edges) :
    validate d = validate e := by
  cases d; cases e
  dsimp at h1 h2 h3 h4 h5
  subst h1; subst h2; subst h3; subst h4; subst h5
  rfl

/-- A successful lookup returns a stored document with the wanted id. -/
theorem getByID_ok_mem {store : List FlowDiagram} {id : String}
    {e : FlowDiagram} (h : getByID store id = .ok e) :
    e ∈ store ∧ e.ID = id := by
  induction store with
  | nil => exact absurd h (by simp [getByID])
  | cons f rest ih =>
    unfold getByID at h
    by_cases hf : f.ID = id
    · rw [if_pos hf] at h
      injection h with h2
      subst h2
      exact ⟨ List.mem_cons_self f rest, hf⟩
    · rw [if_neg hf] at h
      exact ⟨ List.mem_cons_of_mem f (ih h).1, (ih h).2⟩

/-- The only lookup failure is `notFound`. -/
theorem getByID_err {store : List FlowDiagram} {id : String}
    {e : ServiceError} (h : getByID store id = .error e) : e = .notFound := by
  induction store with
  | nil =>
    unfold getByID at h
    injection h with h2
    exact h2.symm
  | cons f rest ih =>
    unfold getByID at h
    by_cases hf : f.ID = id
    · rw [if_pos hf] at h
      exact absurd h (by simp)
    · rw [if_neg hf] at h
      exact ih h

/-- When no stored document carries the id, the lookup fails. -/
theorem getByID_none {store : List FlowDiagram} {id : String}
    (h : ∀ f ∈ store, f.ID ≠ id) : getByID store id = .error .notFound := by
  induction store with
  | nil => rfl
  | cons f rest ih =>
    unfold getByID
    rw [if_neg (h f ( List.mem_cons_self f rest))]
    exact ih fun g hg => h g ( List.mem_cons_of_mem f hg)

/-- Under unique ids, looking up a stored document's id returns it. -/
theorem getByID_self {store : List FlowDiagram}
    (hids : (store.map (fun y => y.ID)).Nodup)
    {P : FlowDiagram} (hP : P ∈ store) : getByID store P.ID = .ok P := by
  induction store with
  | nil => cases hP
  | cons f rest ih =>
    have h2 : (∀ x ∈ rest, ¬x.ID = f.ID) ∧
        (rest.map (fun y => y.ID)).Nodup := by simpa using hids
    rcases List.mem_cons.mp hP with rfl | hPr
    · unfold getByID
      rw [if_pos rfl]
    · have hne : f.ID ≠ P.ID := fun heq => h2.1 P hPr heq.symm
      unfold getByID
      rw [if_neg hne]
      exact ih h2.2 hPr

/-- Writing `d'` over the file of a stored document `e` (unique ids and
paths): lookups find `d'` at `d'.ID` and are unchanged elsewhere. -/
theorem getByID_writeFile {store : List FlowDiagram} {e d' : FlowDiagram}
    {p : String}
    (hids : (store.map (fun y => y.ID)).Nodup)
    (hpaths : (store.map (fun y => y.FilePath)).Nodup)
    (he : e ∈ store) (hep : e.FilePath = p) (hid : d'.ID = e.ID)
    (x : String) :
    getByID (writeFile store p d') x =
      if x = d'.ID then .ok d' else getByID store x := by
  induction store with
  | nil => cases he
  | cons f rest ih =>
    have hI : (∀ y ∈ rest, ¬y.ID = f.ID) ∧
        (rest.map (fun y => y.ID)).Nodup := by simpa using hids
    have hPp : (∀ y ∈ rest, ¬y.FilePath = f.FilePath) ∧
        (rest.map (fun y => y.FilePath)).Nodup := by simpa using hpaths
    by_cases hfp : f.FilePath = p
    · have hef : e = f := by
        rcases List.mem_cons.mp he with rfl | her
        · rfl
        · exact absurd (hep.trans hfp.symm) (hPp.1 e her)
      subst hef
      unfold writeFile
      rw [if_pos hfp]
      by_cases hx : x = d'.ID
      · unfold getByID
        rw [if_pos hx.symm, if_pos hx]
      · unfold getByID
        rw [if_neg (fun h => hx h.symm), if_neg hx,
          if_neg (fun h : e.ID = x => hx (h ▸ hid.symm ▸ rfl))]
    · have her : e ∈ rest := by
        rcases List.mem_cons.mp he with rfl | her
        · exact absurd hep hfp
        · exact her
      unfold writeFile
      rw [if_neg hfp]
      by_cases hfx : f.ID = x
      · have hxd : ¬x = d'.ID := fun h =>
          hI.1 e her (by rw [hid] at h; rw [← h, hfx])
        unfold getByID
        rw [if_pos hfx, if_pos hfx, if_neg hxd]
      · unfold getByID
        rw [if_neg hfx, if_neg hfx]
        exact ih hI.2 hPp.2 her

/-- Overwriting the file of a stored document at `p` (unique paths)
keeps both the id column and the path column of the store unchanged,
provided the new document carries the same id and path. -/
theorem writeFile_maps {store : List FlowDiagram} {e d' : FlowDiagram}
    {p : String}
    (hpaths : (store.map (fun y => y.FilePath)).Nodup)
    (he : e ∈ store) (hep : e.FilePath = p) (hid : d'.ID = e.ID)
    (hfp : d'.FilePath = p) :
    (writeFile store p d').map (fun y => y.ID) =
        store.map (fun y => y.ID) ∧
      (writeFile store p d').map (fun y => y.FilePath) =
        store.map (fun y => y.FilePath) := by
  induction store with
  | nil => cases he
  | cons f rest ih =>
    have hPp : (∀ y ∈ rest, ¬y.FilePath = f.FilePath) ∧
        (rest.map (fun y => y.FilePath)).Nodup := by simpa using hpaths
    by_cases hfpf : f.FilePath = p
    · have hef : e = f := by
        rcases List.mem_cons.mp he with rfl | her
        · rfl
        · exact absurd (hep.trans hfpf.symm) (hPp.1 e her)
      subst hef
      unfold writeFile
      rw [if_pos hfpf]
      simp [hid, hfp, hfpf]
    · have her : e ∈ rest := by
        rcases List.mem_cons.mp he with rfl | her
        · exact absurd hep hfpf
        · exact her
      have := ih hPp.2 her
      unfold writeFile
      rw [if_neg hfpf]
      simp [this.1, this.2]

/-- A stored document at path `p` different from the newly written one
is gone after the write (unique paths). -/
theorem mem_writeFile_ne {store : List FlowDiagram} {e d' : FlowDiagram}
    {p : String}
    (hpaths : (store.map (fun y => y.FilePath)).Nodup)
    (hep : e.FilePath = p) (hne : e ≠ d') :
    e ∉ writeFile store p d' := by
  induction store with
  | nil => simpa [writeFile] using hne
  | cons f rest ih =>
    have hPp : (∀ y ∈ rest, ¬y.FilePath = f.FilePath) ∧
        (rest.map (fun y => y.FilePath)).Nodup := by simpa using hpaths
    by_cases hfpf : f.FilePath = p
    · unfold writeFile
      rw [if_pos hfpf]
      intro hmem
      rcases List.mem_cons.mp hmem with rfl | her
      · exact hne rfl
      · exact hPp.1 e her (hep.trans hfpf.symm)
    · unfold writeFile
      rw [if_neg hfpf]
      intro hmem
      rcases List.mem_cons.mp hmem with rfl | her
      · exact hfpf hep
      · exact ih hPp.2 her

/-- Equation for a successful `Update`: the stored document's `Created`
and `FilePath` are carried over, `Updated` is stamped, and the result is
persisted at the original path. -/
theorem update_ok {store : List FlowDiagram} {now : Nat} {d e : FlowDiagram}
    (hget : getByID store d.ID = .ok e) (hv : (validate d).Valid = true) :
    update store now d =
      (.ok {d with Created := e.Created, Updated := now, FilePath := e.FilePath},
       writeFile store e.FilePath
         {d with Created := e.Created, Updated := now, FilePath := e.FilePath}) := by
  unfold update
  rw [hget]
  have hval : validate
      {d with Created := e.Created, Updated := now, FilePath := e.FilePath} =
      validate d := validate_fields_eq _ _ rfl rfl rfl rfl rfl
  simp [hval, hv]

/-- `Update` on an id absent from the store fails with `notFound` and
leaves the store unchanged. -/
theorem update_notFound {store : List FlowDiagram} {now : Nat}
    {d : FlowDiagram} (h : ∀ f ∈ store, f.ID ≠ d.ID) :
    update store now d = (.error .notFound, store) := by
  unfold update
  rw [getByID_none h]

/-- `Update` on an invalid document whose id exists fails with
`invalidDocument` and leaves the store unchanged. -/
theorem update_invalid {store : List FlowDiagram} {now : Nat}
    {d e : FlowDiagram} (hget : getByID store d.ID = .ok e)
    (hv : (validate d).Valid = false) :
    update store now d =
      (.error (.invalidDocument (validate d).Errors.length), store) := by
  unfold update
  rw [hget]
  have hval : validate
      {d with Created := e.Created, Updated := now, FilePath := e.FilePath} =
      validate d := validate_fields_eq _ _ rfl rfl rfl rfl rfl
  simp [hval, hv]

/-- Equation for a successful `Create`: both timestamps stamped to now,
path derived from the id, persisted there. -/
theorem create_ok (store : List FlowDiagram) (now : Nat) (d : FlowDiagram)
    (hv : (validate d).Valid = true) :
    create store now d =
      (.ok {d with Created := now, Updated := now, FilePath := diagPath d.ID},
       writeFile store (diagPath d.ID)
         {d with Created := now, Updated := now, FilePath := diagPath d.ID}) := by
  unfold create
  have h0 : validate {d with Created := now, Updated := now} = validate d :=
    validate_fields_eq _ _ rfl rfl rfl rfl rfl
  simp [h0, hv]

/-- `Create` on an invalid document fails with `invalidDocument` and
leaves the store unchanged. -/
theorem create_invalid (store : List FlowDiagram) (now : Nat)
    (d : FlowDiagram) (hv : (validate d).Valid = false) :
    create store now d =
      (.error (.invalidDocument (validate d).Errors.length), store) := by
  unfold create
  have h0 : validate {d with Created := now, Updated := now} = validate d :=
    validate_fields_eq _ _ rfl rfl rfl rfl rfl
  simp [h0, hv]

/-- `SaveYAMLByID` on a parsed document whose id-reconciled form is
invalid fails with `invalidDocument` and leaves the store unchanged. -/
theorem saveYAML_invalid (store : List FlowDiagram) (id : String)
    (parsed : FlowDiagram) (hide : parsed.ID = "" ∨ parsed.ID = id)
    (hv : (validate (if parsed.ID = "" then {parsed with ID := id} else parsed)).Valid
      = false) :
    saveYAMLByID store id parsed =
      (.error (.invalidDocument
        (validate (if parsed.ID = "" then {parsed with ID := id} else parsed)).Errors.length),
       store) := by
  unfold saveYAMLByID
  have hcond : ¬(parsed.ID ≠ "" ∧ parsed.ID ≠ id) := by
    rcases hide with h | h <;> simp [h]
  rw [if_neg hcond]
  simp [hv]

/-! ## Claim theorems -/

/-- C4 (code bug): a diagram whose only edge has an empty `name`, with
every other validation rule satisfied, passes `Validate` with no error —
the validator never checks edge names, although the schema reference
lists `name` as required for edges and nodes are checked analogously. -/
theorem C4_edge_name_unchecked :
    validate edgeNoName = ⟨true, [], []⟩ ∧
      edgeNoName.Edges.map (fun e => e.Name) = [""] := ⟨rfl, rfl⟩

/-- C5 (code bug): a diagram whose only edge is a self-loop
(`from == to`), with every other rule satisfied, passes `Validate` with
no error — the validator has no `from != to` rule, although the schema
reference forbids self-referencing edges. -/
theorem C5_self_loop_unchecked :
    validate selfLoop = ⟨true, [], []⟩ ∧
      selfLoop.Edges.map (fun e => (e.From, e.To)) = [("n1", "n1")] :=
  ⟨rfl, rfl⟩

/-- C8: for an id present in the store, `Update` returns the document
with the stored `Created` and `FilePath` preserved and only `Updated`
re-stamped, persisting at the original path; for an absent id it fails
with `notFound` leaving the store unchanged. -/
theorem C8_update_frame (store : List FlowDiagram) (now : Nat)
    (d : FlowDiagram) :
    (∀ e, getByID store d.ID = .ok e → (validate d).Valid = true →
      update store now d =
        (.ok {d with Created := e.Created, Updated := now, FilePath := e.FilePath},
         writeFile store e.FilePath
           {d with Created := e.Created, Updated := now, FilePath := e.FilePath}))
  ∧ ((∀ f ∈ store, f.ID ≠ d.ID) →
      update store now d = (.error .notFound, store)) :=
  ⟨fun _ hget hv => update_ok hget hv, fun h => update_notFound h⟩

/-- Witness for C8 at a concrete store. -/
theorem C8_witness :
    update [exA] 9 exA2 =
      (.ok { ID := "A", Name := "Replacement A", Version := "2.0.0",
             Created := 0, Updated := 9, FilePath := "diagrams/A.yaml" },
       [{ ID := "A", Name := "Replacement A", Version := "2.0.0",
          Created := 0, Updated := 9, FilePath := "diagrams/A.yaml" }]) ∧
    update [] 9 exA2 = (.error .notFound, []) := by
  constructor
  · rw [(C8_update_frame [exA] 9 exA2).1 exA rfl rfl]
    rfl
  · exact (C8_update_frame [] 9 exA2).2 (by simp)

/-- C1 (counterexample): creating a diagram whose id `A` is already
persisted does not fail — it succeeds and the previously stored document
is gone from the store. -/
theorem C1_counterexample :
    create [exA] 7 exA2 = (.ok exA2saved, [exA2saved]) ∧
      exA ∉ (create [exA] 7 exA2).2 := by
  refine ⟨rfl, ?_⟩
  decide

/-- C1 (amended): `Create` performs no duplicate-id check; for a valid
document whose derived path coincides with a stored document's path, it
succeeds and overwrites — the previously stored document is no longer in
the store. -/
theorem C1_amended (store : List FlowDiagram) (now : Nat) (d e : FlowDiagram)
    (hpaths : (store.map (fun y => y.FilePath)).Nodup)
    (hv : (validate d).Valid = true)
    (he : e ∈ store) (hep : e.FilePath = diagPath d.ID)
    (hne : e.Updated ≠ now) :
    create store now d =
      (.ok {d with Created := now, Updated := now, FilePath := diagPath d.ID},
       writeFile store (diagPath d.ID)
         {d with Created := now, Updated := now, FilePath := diagPath d.ID}) ∧
    e ∉ (create store now d).2 := by
  have hc := create_ok store now d hv
  refine ⟨hc, ?_⟩
  rw [hc]
  exact mem_writeFile_ne hpaths hep fun h => hne (by rw [h])

/-- Witness for the amended C1 at a concrete store. -/
theorem C1_witness :
    create [exA] 7 exA2 =
      (.ok {exA2 with Created := 7, Updated := 7, FilePath := diagPath exA2.ID},
       writeFile [exA] (diagPath exA2.ID)
         {exA2 with Created := 7, Updated := 7, FilePath := diagPath exA2.ID}) ∧
    exA ∉ (create [exA] 7 exA2).2 :=
  C1_amended [exA] 7 exA2 exA (by decide) rfl (by decide) rfl (by decide)

/-- C3 (counterexample): two deviations from the claim.  A parsed
document with an empty id is invalid under `Validate`, yet
`SaveYAMLByID` reconciles the id from the path, the reconciled document
validates, and the save succeeds and persists.  An invalid document
whose id is absent makes `Update` fail with `notFound`, not
`invalidDocument`. -/
theorem C3_counterexample :
    (validate noIdDoc).Valid = false ∧
    saveYAMLByID [] "x" noIdDoc = (.ok (), [noIdDocSaved]) ∧
    (validate badDoc).Valid = false ∧
    update [] 0 badDoc = (.error .notFound, []) := ⟨rfl, rfl, rfl, rfl⟩

/-- C3 (amended): an invalid document is never persisted by a mutating
call.  `Create` rejects it with `invalidDocument`; `Update` leaves the
store unchanged and fails — with `notFound` when the id is absent
(existence is checked first) and with `invalidDocument` when it exists;
`SaveYAMLByID` rejects with `invalidDocument` whenever the id-reconciled
document is invalid. -/
theorem C3_amended (store : List FlowDiagram) (now : Nat) (id : String)
    (d : FlowDiagram) (hv : (validate d).Valid = false) :
    create store now d =
        (.error (.invalidDocument (validate d).Errors.length), store)
  ∧ ((∀ f ∈ store, f.ID ≠ d.ID) →
      update store now d = (.error .notFound, store))
  ∧ (∀ e, getByID store d.ID = .ok e →
      update store now d =
        (.error (.invalidDocument (validate d).Errors.length), store))
  ∧ ((d.ID = "" ∨ d.ID = id) →
      (validate (if d.ID = "" then {d with ID := id} else d)).Valid = false →
      saveYAMLByID store id d =
        (.error (.invalidDocument
          (validate (if d.ID = "" then {d with ID := id} else d)).Errors.length),
         store)) :=
  ⟨create_invalid store now d hv,
   fun h => update_notFound h,
   fun _ hget => update_invalid hget hv,
   fun hide hv' => saveYAML_invalid store id d hide hv'⟩

/-- Witness for the amended C3 at a concrete invalid document. -/
theorem C3_witness :
    create [] 0 badDoc =
        (.error (.invalidDocument (validate badDoc).Errors.length), [])
  ∧ update [] 0 badDoc = (.error .notFound, [])
  ∧ saveYAMLByID [] "z" badDoc =
      (.error (.invalidDocument
        (validate (if badDoc.ID = "" then {badDoc with ID := "z"}
          else badDoc)).Errors.length), []) :=
  ⟨(C3_amended [] 0 "z" badDoc rfl).1,
   (C3_amended [] 0 "z" badDoc rfl).2.1 (by simp),
   (C3_amended [] 0 "z" badDoc rfl).2.2.2 (by decide) (by decide)⟩

/-! ## Search lemmas -/

/-- The empty list is a prefix of every list. -/
theorem isPrefixOf_nil_left (l : List Char) :
    ([] : List Char).isPrefixOf l = true := by
  cases l <;> rfl

/-- `strings.Contains(s, "")` is true for every `s`. -/
theorem goContains_empty (s : String) : goContains s "" = true := by
  unfold goContains containsSub
  simp [isPrefixOf_nil_left]

/-- Closed form of the tag-scoring loop: the score grows by 0.6 per
matching tag, and `matchType` becomes "tag" only when it was unset and
some tag matches. -/
theorem tagLoop_eq (q : String) (ts : List String) (s : ℚ) (m : String) :
    tagLoop q ts (s, m) =
      (s + 0.6 * ((ts.filter fun t => goContains (goToLower t) q).length : ℚ),
       if m = "" then
         (if ts.any fun t => goContains (goToLower t) q then "tag" else "")
       else m) := by
  induction ts generalizing s m with
  | nil =>
    simp only [tagLoop, List.foldl_nil, List.filter_nil, List.length_nil,
      List.any_nil, Nat.cast_zero, mul_zero, add_zero, if_false,
      Bool.false_eq_true]
    by_cases hm : m = "" <;> simp [hm]
  | cons t ts ih =>
    unfold tagLoop
    unfold tagLoop at ih
    by_cases ht : goContains (goToLower t) q = true
    · simp only [List.foldl_cons, ht, if_true]
      rw [ih]
      by_cases hm : m = ""
      · simp [hm, ht]
        push_cast
        ring
      · simp [hm, ht]
        push_cast
        ring
    · simp only [List.foldl_cons, ht, if_false, Bool.false_eq_true]
      rw [ih]
      simp [ht]

/-- Closed form of the per-diagram search body: the score is the sum of
the name (1.0), description (0.8) and per-tag (0.6) contributions; the
match type is the first matching category in the order name,
description, tag; inclusion requires every filter tag (when a filter is
given) or a positive score (when not). -/
theorem searchOne_eq (query : String) (tags : List String) (d : FlowDiagram) :
    searchOne query tags d =
      if tags.length > 0 ∧
          ¬(tags.all fun rt => d.Tags.any fun dt => eqFold dt rt) = true then
        none
      else if (0:ℚ) <
            (if goContains (goToLower d.Name) (goToLower query) then (1:ℚ) else 0)
            + (if d.Description.elim false
                  (fun s => goContains (goToLower s) (goToLower query))
               then (0.8:ℚ) else 0)
            + 0.6 * ((d.Tags.filter fun t =>
                goContains (goToLower t) (goToLower query)).length : ℚ)
          ∨ tags.length > 0 then
        some ⟨d,
          (if goContains (goToLower d.Name) (goToLower query) then (1:ℚ) else 0)
            + (if d.Description.elim false
                  (fun s => goContains (goToLower s) (goToLower query))
               then (0.8:ℚ) else 0)
            + 0.6 * ((d.Tags.filter fun t =>
                goContains (goToLower t) (goToLower query)).length : ℚ),
          if goContains (goToLower d.Name) (goToLower query) then "name"
          else if d.Description.elim false
              (fun s => goContains (goToLower s) (goToLower query)) then
            "description"
          else if d.Tags.any fun t => goContains (goToLower t) (goToLower query)
            then "tag" else ""⟩
      else none := by
  unfold searchOne
  rcases hdesc : d.Description with _ | s <;>
    by_cases hnm : goContains (goToLower d.Name) (goToLower query) = true
  · simp [hnm, tagLoop_eq, Option.elim]
  · simp [hnm, tagLoop_eq, Option.elim]
  · by_cases hdm : goContains (goToLower s) (goToLower query) = true <;>
      simp [hnm, hdm, tagLoop_eq, Option.elim] <;> ring_nf
  · by_cases hdm : goContains (goToLower s) (goToLower query) = true <;>
      simp [hnm, hdm, tagLoop_eq, Option.elim] <;> ring_nf

/-- Search results carry the diagram they were built from. -/
theorem searchOne_some_diagram {query : String} {tags : List String}
    {d : FlowDiagram} {r : SearchResult}
    (h : searchOne query tags d = some r) : r.Diagram = d := by
  rw [searchOne_eq] at h
  split_ifs at h <;>
    first
      | exact Option.noConfusion h
      | (injection h with h2; subst h2; rfl)

/-- A stored diagram appears among the search results exactly when its
per-diagram body produces a result. -/
theorem mem_search_iff {store : List FlowDiagram} {query : String}
    {tags : List String} {d : FlowDiagram} (hd : d ∈ store) :
    (∃ r ∈ search store query tags, r.Diagram = d) ↔
      (searchOne query tags d).isSome = true := by
  constructor
  · rintro ⟨r, hr, hrd⟩
    obtain ⟨a, ha, hae⟩ := List.mem_filterMap.mp hr
    have had : a = d := by rw [← hrd, searchOne_some_diagram hae]
    subst had
    rw [hae]
    rfl
  · intro h
    obtain ⟨r, hr⟩ := Option.isSome_iff_exists.mp h
    exact ⟨r, List.mem_filterMap.mpr ⟨d, hd, hr⟩, searchOne_some_diagram hr⟩

/-- The search result a diagram produces, when it produces one: the
score sums every matching contribution and the match type is the first
matching category in precedence order. -/
theorem searchOne_some_eq {query : String} {tags : List String}
    {d : FlowDiagram} {r : SearchResult}
    (h : searchOne query tags d = some r) :
    r = ⟨d,
      (if goContains (goToLower d.Name) (goToLower query) then (1:ℚ) else 0)
        + (if d.Description.elim false
              (fun s => goContains (goToLower s) (goToLower query))
           then (0.8:ℚ) else 0)
        + 0.6 * ((d.Tags.filter fun t =>
            goContains (goToLower t) (goToLower query)).length : ℚ),
      if goContains (goToLower d.Name) (goToLower query) then "name"
      else if d.Description.elim false
          (fun s => goContains (goToLower s) (goToLower query)) then
        "description"
      else if d.Tags.any fun t => goContains (goToLower t) (goToLower query)
        then "tag" else ""⟩ := by
  rw [searchOne_eq] at h
  by_cases h1 : tags.length > 0 ∧
      ¬(tags.all fun rt => d.Tags.any fun dt => eqFold dt rt) = true
  · rw [if_pos h1] at h
    exact Option.noConfusion h
  · rw [if_neg h1] at h
    by_cases h2 : (0:ℚ) <
        (if goContains (goToLower d.Name) (goToLower query) then (1:ℚ) else 0)
        + (if d.Description.elim false
              (fun s => goContains (goToLower s) (goToLower query))
           then (0.8:ℚ) else 0)
        + 0.6 * ((d.Tags.filter fun t =>
            goContains (goToLower t) (goToLower query)).length : ℚ)
        ∨ tags.length > 0
    · rw [if_pos h2] at h
      injection h with h3
      exact h3.symm
    · rw [if_neg h2] at h
      exact Option.noConfusion h

/-- C9: `Search` includes a stored diagram exactly when every filter tag
is present case-insensitively (tags filter supplied) or the score is
positive (no filter); a result's score sums the name (1.0), description
(0.8) and per-matching-tag (0.6) contributions, and its match type is
the first matching category in the order name, description, tag. -/
theorem C9_search_semantics (store : List FlowDiagram) (query : String)
    (tags : List String) (d : FlowDiagram) (hd : d ∈ store) :
    (tags ≠ [] →
      ((∃ r ∈ search store query tags, r.Diagram = d) ↔
        (tags.all fun rt => d.Tags.any fun dt => eqFold dt rt) = true))
  ∧ (tags = [] →
      ((∃ r ∈ search store query tags, r.Diagram = d) ↔
        (0:ℚ) <
          (if goContains (goToLower d.Name) (goToLower query) then (1:ℚ) else 0)
          + (if d.Description.elim false
                (fun s => goContains (goToLower s) (goToLower query))
             then (0.8:ℚ) else 0)
          + 0.6 * ((d.Tags.filter fun t =>
              goContains (goToLower t) (goToLower query)).length : ℚ)))
  ∧ (∀ r ∈ search store query tags, r.Diagram = d →
      r.Score =
          (if goContains (goToLower d.Name) (goToLower query) then (1:ℚ) else 0)
          + (if d.Description.elim false
                (fun s => goContains (goToLower s) (goToLower query))
             then (0.8:ℚ) else 0)
          + 0.6 * ((d.Tags.filter fun t =>
              goContains (goToLower t) (goToLower query)).length : ℚ)
        ∧ r.MatchType =
            (if goContains (goToLower d.Name) (goToLower query) then "name"
             else if d.Description.elim false
                 (fun s => goContains (goToLower s) (goToLower query)) then
               "description"
             else if d.Tags.any fun t =>
                 goContains (goToLower t) (goToLower query)
               then "tag" else "")) := by
  refine ⟨?_, ?_, ?_⟩
  · intro htags
    rw [mem_search_iff hd, searchOne_eq]
    have hlen : tags.length > 0 := List.length_pos.mpr htags
    by_cases hall : (tags.all fun rt => d.Tags.any fun dt => eqFold dt rt) = true
    · simp [hall, hlen]
    · simp [hall, hlen]
  · intro htags
    subst htags
    rw [mem_search_iff hd, searchOne_eq]
    simp only [List.length_nil, Nat.lt_irrefl, false_and, if_false,
      or_false, Bool.false_eq_true, gt_iff_lt]
    split_ifs with hs <;> (try simp [hs]) <;> linarith
  · intro r hr hrd
    obtain ⟨a, ha, hae⟩ := List.mem_filterMap.mp hr
    have had : a = d := by rw [← hrd, searchOne_some_diagram hae]
    subst had
    rw [searchOne_some_eq hae]
    exact ⟨rfl, rfl⟩

/-- Witness for C9: a diagram tagged `Status` matches the `ops` filter
case-insensitively and is included. -/
theorem C9_witness :
    wS ∈ [wS] ∧ (∃ r ∈ search [wS] "status" ["ops"], r.Diagram = wS) :=
  ⟨by simp,
   ((C9_search_semantics [wS] "status" ["ops"] wS (by simp)).1
     (by simp)).mpr (by decide)⟩

/-- C10: searching with an empty query and no tag filter returns every
stored diagram, each matched on its name with score at least 1. -/
theorem C10_empty_search (store : List FlowDiagram) :
    (search store "" []).map (fun r => r.Diagram) = store
  ∧ ∀ r ∈ search store "" [], r.MatchType = "name" ∧ (1:ℚ) ≤ r.Score := by
  have hone : ∀ d : FlowDiagram, ∃ sc : ℚ,
      searchOne "" [] d = some ⟨d, sc, "name"⟩ ∧ 1 ≤ sc := by
    intro d
    rw [searchOne_eq]
    rcases hdd : d.Description with _ | s <;>
      (simp [hdd, show goToLower "" = "" from rfl, goContains_empty,
         List.filter_true]
       have hnn : (0:ℚ) ≤ 0.6 * (d.Tags.length : ℚ) := by positivity
       exact ⟨_, ⟨by linarith, rfl⟩, by linarith⟩)
  constructor
  · induction store with
    | nil => rfl
    | cons d rest ih =>
      unfold search at *
      rw [ List.filterMap_cons]
      obtain ⟨sc, h1, _⟩ := hone d
      rw [h1]
      simpa using ih
  · intro r hr
    obtain ⟨a, ha, hae⟩ := List.mem_filterMap.mp hr
    obtain ⟨sc, h1, hsc⟩ := hone a
    rw [h1] at hae
    injection hae with h2
    rw [← h2]
    exact ⟨rfl, hsc⟩

/-- Witness for C10 at a concrete store. -/
theorem C10_witness :
    (search [wS] "" []).map (fun r => r.Diagram) = [wS]
  ∧ ∀ r ∈ search [wS] "" [], r.MatchType = "name" ∧ (1:ℚ) ≤ r.Score :=
  C10_empty_search [wS]

/-! ## Hierarchy link lemmas -/

/-- Re-assigning a diagram's own node list is the identity. -/
theorem withNodes_self (d : FlowDiagram) : {d with Nodes := d.Nodes} = d := rfl

/-- C7: linking child `C` under parent `P` (no drill-down node) succeeds
on a well-formed store of valid diagrams; afterwards `GetParent C`
returns the updated parent (same id, children extended by `C.ID` unless
already present — never appended twice), and a diagram with `C`'s id
appears among `GetChildren P`. -/
theorem C7_link_consistency (store : List FlowDiagram) (now : Nat)
    (P C : FlowDiagram)
    (hids : (store.map (fun y => y.ID)).Nodup)
    (hpaths : (store.map (fun y => y.FilePath)).Nodup)
    (hP : P ∈ store) (hC : C ∈ store) (hne : P.ID ≠ C.ID)
    (hvP : (validate P).Valid = true) (hvC : (validate C).Valid = true) :
    ∃ store2,
      linkDiagrams store now P.ID C.ID "" = (.ok (), store2)
      ∧ (∃ P1, getParent store2 C.ID = .ok P1 ∧ P1.ID = P.ID
          ∧ P1.Children =
              (if C.ID ∈ P.Children then P.Children else P.Children ++ [C.ID]))
      ∧ (∃ l, getChildren store2 P.ID = .ok l ∧ ∃ D ∈ l, D.ID = C.ID) := by
  have hgP : getByID store P.ID = .ok P := getByID_self hids hP
  have hgC : getByID store C.ID = .ok C := getByID_self hids hC
  have hpar1 : (if C.ID ∈ P.Children then P
      else {P with Children := P.Children ++ [C.ID]}) =
      {P with Children :=
        if C.ID ∈ P.Children then P.Children else P.Children ++ [C.ID]} := by
    by_cases hmem : C.ID ∈ P.Children
    · rw [if_pos hmem, if_pos hmem]
    · rw [if_neg hmem, if_neg hmem]
  have hvmid : (validate {P with Children :=
      if C.ID ∈ P.Children then P.Children else P.Children ++ [C.ID]}).Valid
      = true := by
    rw [validate_fields_eq {P with Children :=
      if C.ID ∈ P.Children then P.Children else P.Children ++ [C.ID]} P
      rfl rfl rfl rfl rfl]
    exact hvP
  have hupd1 : update store now {P with Children :=
      if C.ID ∈ P.Children then P.Children else P.Children ++ [C.ID]} =
      (.ok (linkedParent P C.ID now),
       writeFile store P.FilePath (linkedParent P C.ID now)) := by
    rw [@update_ok store now {P with Children :=
      if C.ID ∈ P.Children then P.Children else P.Children ++ [C.ID]} P
      hgP hvmid]
    rfl
  have hmaps1 := @writeFile_maps store P (linkedParent P C.ID now) P.FilePath
    hpaths hP rfl rfl rfl
  have hids1 : ((writeFile store P.FilePath
      (linkedParent P C.ID now)).map (fun y => y.ID)).Nodup := by
    rw [hmaps1.1]; exact hids
  have hpaths1 : ((writeFile store P.FilePath
      (linkedParent P C.ID now)).map (fun y => y.FilePath)).Nodup := by
    rw [hmaps1.2]; exact hpaths
  have hget2 : getByID (writeFile store P.FilePath (linkedParent P C.ID now))
      C.ID = .ok C := by
    rw [@getByID_writeFile store P (linkedParent P C.ID now) P.FilePath
      hids hpaths hP rfl rfl C.ID, if_neg (fun h => hne h.symm)]
    exact hgC
  have hvc1 : (validate {C with Parent := some P.ID}).Valid = true := by
    rw [validate_fields_eq {C with Parent := some P.ID} C rfl rfl rfl rfl rfl]
    exact hvC
  have hupd2 : update (writeFile store P.FilePath (linkedParent P C.ID now))
      now {C with Parent := some P.ID} =
      (.ok (linkedChild C P.ID now),
       writeFile (writeFile store P.FilePath (linkedParent P C.ID now))
         C.FilePath (linkedChild C P.ID now)) := by
    rw [@update_ok (writeFile store P.FilePath (linkedParent P C.ID now)) now
      {C with Parent := some P.ID} C hget2 hvc1]
    rfl
  have hCmem1 : C ∈ writeFile store P.FilePath (linkedParent P C.ID now) :=
    (getByID_ok_mem hget2).1
  have hgetC2 : getByID (writeFile (writeFile store P.FilePath
      (linkedParent P C.ID now)) C.FilePath (linkedChild C P.ID now)) C.ID =
      .ok (linkedChild C P.ID now) := by
    rw [@getByID_writeFile (writeFile store P.FilePath (linkedParent P C.ID now))
      C (linkedChild C P.ID now) C.FilePath hids1 hpaths1 hCmem1 rfl rfl C.ID,
      if_pos (show C.ID = (linkedChild C P.ID now).ID from rfl)]
  have hgetP2 : getByID (writeFile (writeFile store P.FilePath
      (linkedParent P C.ID now)) C.FilePath (linkedChild C P.ID now)) P.ID =
      .ok (linkedParent P C.ID now) := by
    rw [@getByID_writeFile (writeFile store P.FilePath (linkedParent P C.ID now))
      C (linkedChild C P.ID now) C.FilePath hids1 hpaths1 hCmem1 rfl rfl P.ID,
      if_neg (show ¬P.ID = (linkedChild C P.ID now).ID from hne),
      @getByID_writeFile store P (linkedParent P C.ID now) P.FilePath
        hids hpaths hP rfl rfl P.ID,
      if_pos (show P.ID = (linkedParent P C.ID now).ID from rfl)]
  refine ⟨writeFile (writeFile store P.FilePath (linkedParent P C.ID now))
    C.FilePath (linkedChild C P.ID now), ?_, ?_, ?_⟩
  · unfold linkDiagrams
    rw [hgP, hgC]
    dsimp only
    rw [hpar1, if_pos (rfl : "" = "")]
    dsimp only
    rw [hupd1]
    dsimp only
    rw [hupd2]
  · refine ⟨linkedParent P C.ID now, ?_, rfl, rfl⟩
    unfold getParent
    rw [hgetC2]
    dsimp only
    rw [show (linkedChild C P.ID now).Parent = some P.ID from rfl]
    exact hgetP2
  · refine ⟨(linkedParent P C.ID now).Children.filterMap
      (fun cid => (getByID (writeFile (writeFile store P.FilePath
        (linkedParent P C.ID now)) C.FilePath (linkedChild C P.ID now))
        cid).toOption), ?_, ?_⟩
    · unfold getChildren
      rw [hgetP2]
    · refine ⟨linkedChild C P.ID now, ?_, rfl⟩
      apply List.mem_filterMap.mpr
      refine ⟨C.ID, ?_, ?_⟩
      · show C.ID ∈ (linkedParent P C.ID now).Children
        by_cases hmem : C.ID ∈ P.Children
        · simpa [linkedParent, hmem] using hmem
        · simp [linkedParent, hmem]
      · rw [hgetC2]
        rfl

/-- Witness for C7 at a concrete two-diagram store. -/
theorem C7_witness :
    ∃ store2,
      linkDiagrams [wP, wC] 5 wP.ID wC.ID "" = (.ok (), store2)
      ∧ (∃ P1, getParent store2 wC.ID = .ok P1 ∧ P1.ID = wP.ID
          ∧ P1.Children =
              (if wC.ID ∈ wP.Children then wP.Children
               else wP.Children ++ [wC.ID]))
      ∧ (∃ l, getChildren store2 wP.ID = .ok l ∧ ∃ D ∈ l, D.ID = wC.ID) :=
  C7_link_consistency [wP, wC] 5 wP wC (by decide) (by decide) (by decide)
    (by decide) (by decide) rfl rfl

/-! ## Hierarchy traversal lemmas -/

/-- The child loop only ever grows the visited set (as a set) when the
recursive build does. -/
theorem hierFold_mono
    (f : String → List String → Except ServiceError HierarchyNode × List String)
    (hf : ∀ c vv x, x ∈ vv → x ∈ (f c vv).2) :
    ∀ (cs : List String) (acc : List HierarchyNode × List String) (x : String),
      x ∈ acc.2 → x ∈ (hierFold f cs acc).2 := by
  intro cs
  induction cs with
  | nil => intro acc x hx; exact hx
  | cons c cs ih =>
    intro acc x hx
    have hx2 : x ∈ (f c acc.2).2 := hf c acc.2 x hx
    unfold hierFold
    cases hfc : f c acc.2 with
    | mk r v2 =>
      rw [hfc] at hx2
      cases r with
      | error e => exact ih (acc.1, v2) x hx2
      | ok node => exact ih (acc.1 ++ [node], v2) x hx2

/-- The child loop is unchanged when the recursive build is replaced by
an equal one, along any invariant preserved by the build. -/
theorem hierFold_congr
    (f g : String → List String → Except ServiceError HierarchyNode × List String)
    (Pr : List String → Prop)
    (hfg : ∀ c vv, Pr vv → f c vv = g c vv)
    (hPf : ∀ c vv, Pr vv → Pr ((f c vv).2)) :
    ∀ (cs : List String) (acc : List HierarchyNode × List String),
      Pr acc.2 → hierFold f cs acc = hierFold g cs acc := by
  intro cs
  induction cs with
  | nil => intro acc _; rfl
  | cons c cs ih =>
    intro acc hacc
    unfold hierFold
    rw [← hfg c acc.2 hacc]
    have hPacc := hPf c acc.2 hacc
    cases hfc : f c acc.2 with
    | mk r v2 =>
      rw [hfc] at hPacc
      cases r with
      | error e => exact ih (acc.1, v2) hPacc
      | ok node => exact ih (acc.1 ++ [node], v2) hPacc

/-- The traversal only ever grows the visited set, viewed as a set: the
id it removes on completion is only the one it added itself. -/
theorem buildHierarchyNode_mono (store : List FlowDiagram) :
    ∀ (fuel : Nat) (id : String) (v : List String) (x : String),
      x ∈ v → x ∈ (buildHierarchyNode store fuel id v).2 := by
  intro fuel
  induction fuel with
  | zero => intro id v x hx; exact hx
  | succ f ih =>
    intro id v x hx
    unfold buildHierarchyNode
    by_cases hid : id ∈ v
    · rw [if_pos hid]; exact hx
    · rw [if_neg hid]
      cases hg : getByID store id with
      | error e => exact List.mem_cons_of_mem id hx
      | ok d =>
        dsimp only
        have hx1 : x ∈ id :: v := List.mem_cons_of_mem id hx
        have hfold := hierFold_mono
          (fun c vv => buildHierarchyNode store f c vv)
          (fun c vv y hy => ih c vv y hy) d.Children ([], id :: v) x hx1
        have hxid : x ≠ id := fun h => hid (h ▸ hx)
        exact (List.mem_erase_of_ne hxid).mpr hfold

/-- A successful lookup's id is one of the distinct store ids. -/
theorem mem_storeIDs_of_getByID {store : List FlowDiagram} {id : String}
    {d : FlowDiagram} (h : getByID store id = .ok d) :
    id ∈ storeIDs store := by
  obtain ⟨hmem, hid⟩ := getByID_ok_mem h
  unfold storeIDs
  rw [ List.mem_toFinset]
  exact hid ▸ List.mem_map_of_mem (fun y => y.ID) hmem

/-- Visiting a fresh store id strictly shrinks the unvisited measure. -/
theorem measure_lt {store : List FlowDiagram} {id : String} {v : List String}
    (hid : id ∈ storeIDs store) (hv : id ∉ v) :
    ((storeIDs store) \ (id :: v).toFinset).card <
      ((storeIDs store) \ v.toFinset).card := by
  have h1 : (id :: v).toFinset = insert id v.toFinset := by
    simp [ List.toFinset_cons]
  rw [h1, Finset.sdiff_insert]
  have hmem : id ∈ (storeIDs store) \ v.toFinset :=
    Finset.mem_sdiff.mpr ⟨hid, by simpa using hv⟩
  have h2 := Finset.card_erase_of_mem hmem
  have hpos : 0 < ((storeIDs store) \ v.toFinset).card :=
    Finset.card_pos.mpr ⟨id, hmem⟩
  omega

/-- A larger visited set has a smaller unvisited measure. -/
theorem measure_le {store : List FlowDiagram} {v w : List String}
    (hvw : ∀ x, x ∈ v → x ∈ w) :
    ((storeIDs store) \ w.toFinset).card ≤
      ((storeIDs store) \ v.toFinset).card := by
  apply Finset.card_le_card
  apply Finset.sdiff_subset_sdiff (Finset.Subset.refl _)
  intro x hx
  rw [ List.mem_toFinset] at hx ⊢
  exact hvw x hx

/-- One extra unit of fuel changes nothing once the fuel exceeds the
number of distinct unvisited store ids: this is the Go termination
argument, each nesting level of the recursion marks a fresh store id. -/
theorem buildHierarchyNode_step (store : List FlowDiagram) :
    ∀ (fuel : Nat) (id : String) (v : List String),
      ((storeIDs store) \ v.toFinset).card < fuel →
      buildHierarchyNode store fuel id v =
        buildHierarchyNode store (fuel + 1) id v := by
  intro fuel
  induction fuel with
  | zero => intro id v h; exact absurd h (Nat.not_lt_zero _)
  | succ f ih =>
    intro id v hv
    unfold buildHierarchyNode
    by_cases hid : id ∈ v
    · rw [if_pos hid, if_pos hid]
    · rw [if_neg hid, if_neg hid]
      cases hg : getByID store id with
      | error e => rfl
      | ok d =>
        dsimp only
        have hmeas : ((storeIDs store) \ (id :: v).toFinset).card < f := by
          have := measure_lt (mem_storeIDs_of_getByID hg) hid
          omega
        have hfeq : hierFold (fun c vv => buildHierarchyNode store f c vv)
            d.Children ([], id :: v) =
            hierFold (fun c vv => buildHierarchyNode store (f + 1) c vv)
            d.Children ([], id :: v) := by
          refine hierFold_congr _ _
            (fun vv => ((storeIDs store) \ vv.toFinset).card < f)
            ?_ ?_ d.Children ([], id :: v) hmeas
          · intro c vv hvv
            exact ih c vv hvv
          · intro c vv hvv
            exact lt_of_le_of_lt
              (measure_le fun x hx => buildHierarchyNode_mono store f c vv x hx)
              hvv
        rw [hfeq]

/-- Any two sufficient fuels produce the same traversal result: the
fuelled recursion has a limit, i.e. the Go recursion terminates. -/
theorem buildHierarchyNode_stable (store : List FlowDiagram) :
    ∀ (f1 f2 : Nat) (id : String) (v : List String),
      ((storeIDs store) \ v.toFinset).card < f1 →
      ((storeIDs store) \ v.toFinset).card < f2 →
      buildHierarchyNode store f1 id v = buildHierarchyNode store f2 id v := by
  have hplus : ∀ (k f : Nat) (id : String) (v : List String),
      ((storeIDs store) \ v.toFinset).card < f →
      buildHierarchyNode store f id v =
        buildHierarchyNode store (f + k) id v := by
    intro k
    induction k with
    | zero => intro f id v _; rfl
    | succ kk ih =>
      intro f id v h
      rw [ih f id v h, buildHierarchyNode_step store (f + kk) id v (by omega)]
      rfl
  intro f1 f2 id v h1 h2
  rcases le_total f1 f2 with h | h
  · obtain ⟨k, rfl⟩ := Nat.le.dest h
    exact hplus k f1 id v h1
  · obtain ⟨k, rfl⟩ := Nat.le.dest h
    exact (hplus k f2 id v h2).symm

/-- With any positive fuel, the traversal itself never bottoms out: its
own result is a tree, a circular-reference error or a lookup error. -/
theorem buildHierarchyNode_not_exhausted (store : List FlowDiagram)
    (fuel : Nat) (id : String) (v : List String) :
    (buildHierarchyNode store (fuel + 1) id v).1 ≠ .error .fuelExhausted := by
  unfold buildHierarchyNode
  by_cases hid : id ∈ v
  · rw [if_pos hid]; simp
  · rw [if_neg hid]
    cases hg : getByID store id with
    | error e =>
      have he := getByID_err hg
      subst he
      simp
    | ok d => simp

/-- An id already on the active path makes the recursive call fail with
a circular-reference error at once. -/
theorem buildHierarchyNode_detect (store : List FlowDiagram) (fuel : Nat)
    (id : String) (v : List String) (hid : id ∈ v) :
    (buildHierarchyNode store (fuel + 1) id v).1 =
      .error (.circularReference id) := by
  unfold buildHierarchyNode
  rw [if_pos hid]

/-- C2 (counterexample): on the cyclic store `A ↔ B`,
`GetHierarchyTree A` does not return a circular-reference failure to its
caller — it returns a tree, with the cyclic branch under `B` omitted. -/
theorem C2_counterexample :
    getHierarchyTree [cycA, cycB] "A" = .ok (.mk cycA [.mk cycB []]) := by
  rfl

/-- C2 (amended): the traversal detects a repeated id on the active path
and fails that recursive call with `CircularReference`; the parent-level
child loop swallows the failure (logs and skips), so on a cyclic store
`GetHierarchyTree` returns a tree with the cyclic branch omitted rather
than returning the failure.  The traversal terminates: it never reaches
the artificial fuel bottom, and its result is independent of the fuel
once the fuel exceeds the number of distinct unvisited store ids. -/
theorem C2_traversal_amended :
    (∀ (store : List FlowDiagram) (fuel : Nat) (id : String)
        (v : List String), id ∈ v →
      (buildHierarchyNode store (fuel + 1) id v).1 =
        .error (.circularReference id))
  ∧ (∀ (store : List FlowDiagram) (fuel : Nat) (id : String)
        (v : List String),
      (buildHierarchyNode store (fuel + 1) id v).1 ≠ .error .fuelExhausted)
  ∧ (∀ (store : List FlowDiagram) (f1 f2 : Nat) (id : String)
        (v : List String),
      ((storeIDs store) \ v.toFinset).card < f1 →
      ((storeIDs store) \ v.toFinset).card < f2 →
      buildHierarchyNode store f1 id v = buildHierarchyNode store f2 id v)
  ∧ getHierarchyTree [cycA, cycB] "A" = .ok (.mk cycA [.mk cycB []]) :=
  ⟨fun store fuel id v h => buildHierarchyNode_detect store fuel id v h,
   fun store fuel id v => buildHierarchyNode_not_exhausted store fuel id v,
   fun store f1 f2 id v h1 h2 =>
     buildHierarchyNode_stable store f1 f2 id v h1 h2,
   by rfl⟩

/-- Witness for the amended C2 at concrete inputs. -/
theorem C2_witness :
    (buildHierarchyNode [cycA, cycB] 1 "A" ["A"]).1 =
      .error (.circularReference "A")
  ∧ buildHierarchyNode [cycA, cycB] 3 "A" [] =
      buildHierarchyNode [cycA, cycB] 4 "A" [] :=
  ⟨C2_traversal_amended.1 [cycA, cycB] 0 "A" ["A"] (by decide),
   C2_traversal_amended.2.2.1 [cycA, cycB] 3 4 "A" [] (by decide) (by decide)⟩

end Flowgen
